import Mathlib

/-!
Shallow embedding of `tensorflow_graphics/rendering/volumetric/ray_radiance.py`.

The numeric kernel (the body of `compute_radiance` after its shape checks)
is translated operation by operation from the source.  Tensors are modelled
as a shape (`List ℕ`) together with a total valuation on multi-indices
(`List ℕ → ℝ`); only indices that are valid for the shape are meaningful.
Floating point arithmetic is idealised as exact real arithmetic.

The shape-checking helpers from `tensorflow_graphics.util.shape` are not
part of the sources; they are modelled from the specification (sections 4.1
and 7 of the spec) and marked as such.
-/

namespace RayRadiance

/-- A multi-dimensional real tensor: a shape and a valuation on
multi-indices.  Only indices valid for `shape` are meaningful. -/
structure RTensor where
  shape : List ℕ
  val : List ℕ → ℝ

/-- Modelled from the spec: the error raised by the (absent)
`tensorflow_graphics.util.shape` helpers.  Each constructor records the
offending tensor name and shape information (spec section 7). -/
inductive ShapeError where
  | dimNotEqual (tensorName : String) (actualShape : List ℕ) (expectedLast : ℕ)
  | rankNotGreater (tensorName : String) (actualShape : List ℕ) (bound : ℕ)
  | batchDimsIncompatible (shapeA shapeB : List ℕ)
  | sampleCountMismatch (shapeA shapeB : List ℕ)

/-- The batch dimensions of a shape: every axis up to and including axis
`-3`, i.e. everything but the last two axes (spec section 4.1). -/
def batchShape (s : List ℕ) : List ℕ := s.dropLast.dropLast

/-- The size of axis `-2` of a shape (the sample-count axis `N`). -/
def dimNeg2 (s : List ℕ) : ℕ := s.dropLast.getLastD 0

/-- Left-pad a shape with `1`s to length `L` (implicit broadcasting rule). -/
def padTo (L : ℕ) (s : List ℕ) : List ℕ := List.replicate (L - s.length) 1 ++ s

/-- Modelled from the spec: two (batch) shapes are broadcast compatible when,
after right-alignment, corresponding dimensions are equal or one of them is
`1` (spec section 4.1). -/
def bcompat (s t : List ℕ) : Bool :=
  (List.zip (padTo (max s.length t.length) s) (padTo (max s.length t.length) t)).all
    (fun p => p.1 == p.2 || p.1 == 1 || p.2 == 1)

/-- The broadcast of two shapes: pointwise maximum after right-alignment. -/
def bshape (s t : List ℕ) : List ℕ :=
  List.zipWith Nat.max (padTo (max s.length t.length) s) (padTo (max s.length t.length) t)

/-- Map a multi-index of the broadcast output back to a multi-index of an
input of shape `s`: drop the extra leading axes and clamp to `0` on axes
where `s` has size `1`. -/
def bproj (s ix : List ℕ) : List ℕ :=
  List.zipWith (fun d i => if d = 1 then 0 else i) s (ix.drop (ix.length - s.length))

/-- Whether a multi-index is valid for a shape (componentwise in range). -/
def isValidIdx : List ℕ → List ℕ → Bool
  | [], [] => true
  | d :: s, i :: ix => decide (i < d) && isValidIdx s ix
  | _, _ => false

/-- Modelled from the spec: the sequence of shape checks performed by
`compute_radiance` before any numeric work, in source order.  `rshape` is
the shape of `rgba_values` and `dshape` the shape of `distances` after the
trailing unit axis has been appended (spec section 4.1). -/
def checkShapes (rshape dshape : List ℕ) : Option ShapeError :=
  if rshape.getLastD 0 ≠ 4 then some (.dimNotEqual "rgba_values" rshape 4)
  else if rshape.length ≤ 1 then some (.rankNotGreater "rgba_values" rshape 1)
  else if dshape.length ≤ 1 then some (.rankNotGreater "distances" dshape 1)
  else if ¬ bcompat (batchShape rshape) (batchShape dshape) then
    some (.batchDimsIncompatible rshape dshape)
  else if dimNeg2 rshape ≠ dimNeg2 dshape then some (.sampleCountMismatch rshape dshape)
  else none

/-- Embedding of `tf.expand_dims(·, -1)`. -/
def expandLast (a : RTensor) : RTensor :=
  ⟨a.shape ++ [1], fun ix => a.val ix.dropLast⟩

/-- Embedding of `tf.squeeze(·, -1)`. -/
def squeezeLast (a : RTensor) : RTensor :=
  ⟨a.shape.dropLast, fun ix => a.val (ix ++ [0])⟩

/-- Embedding of an elementwise unary map (e.g. `tf.exp`, `1. - x`). -/
def tmap (φ : ℝ → ℝ) (a : RTensor) : RTensor :=
  ⟨a.shape, fun ix => φ (a.val ix)⟩

/-- Embedding of broadcasting elementwise multiplication (`*` in TF). -/
def ewMul (a b : RTensor) : RTensor :=
  ⟨bshape a.shape b.shape, fun ix => a.val (bproj a.shape ix) * b.val (bproj b.shape ix)⟩

/-- Embedding of `tf.math.cumprod(·, -1, exclusive=True)`: at sample index
`i` of the last axis, the product of the entries at indices `j < i`. -/
def cumprodExLast (a : RTensor) : RTensor :=
  ⟨a.shape, fun ix => ∏ j ∈ Finset.range (ix.getLastD 0), a.val (ix.dropLast ++ [j])⟩

/-- Embedding of `tf.reduce_sum(·, -1)`. -/
def reduceSumLast (a : RTensor) : RTensor :=
  ⟨a.shape.dropLast, fun ix => ∑ j ∈ Finset.range (a.shape.getLastD 0), a.val (ix ++ [j])⟩

/-- Embedding of `tf.reduce_sum(·, -2)`. -/
def reduceSumSnd (a : RTensor) : RTensor :=
  ⟨batchShape a.shape ++ [a.shape.getLastD 0],
   fun ix => ∑ j ∈ Finset.range (dimNeg2 a.shape), a.val (ix.dropLast ++ [j, ix.getLastD 0])⟩

/-- Embedding of the first component of `tf.split(·, [3, 1], axis=-1)`. -/
def splitRGB (a : RTensor) : RTensor :=
  ⟨a.shape.dropLast ++ [3], a.val⟩

/-- Embedding of the second component of `tf.split(·, [3, 1], axis=-1)`:
a single channel holding entry `3` of the last axis. -/
def splitSigma (a : RTensor) : RTensor :=
  ⟨a.shape.dropLast ++ [1], fun ix => a.val (ix.dropLast ++ [ix.getLastD 0 + 3])⟩

/-- Source line `alpha = 1. - tf.exp(-sigma_a * distances)` followed by
`alpha = tf.squeeze(alpha, -1)`; `distances` already carries its trailing
unit axis. -/
noncomputable def alphaT (rgba_values distances : RTensor) : RTensor :=
  squeezeLast (tmap (fun x => 1 - x)
    (tmap Real.exp (ewMul (tmap (fun x => -x) (splitSigma rgba_values)) distances)))

/-- Source line
`weights = alpha * tf.math.cumprod(1. - alpha + 1e-10, -1, exclusive=True)`. -/
noncomputable def weightsT (rgba_values distances : RTensor) : RTensor :=
  ewMul (alphaT rgba_values distances)
    (cumprodExLast (tmap (fun x => 1 - x + 1e-10) (alphaT rgba_values distances)))

/-- Source line `rgb_map = tf.reduce_sum(tf.expand_dims(weights, -1) * rgb, -2)`. -/
noncomputable def rgbMapT (rgba_values distances : RTensor) : RTensor :=
  reduceSumSnd (ewMul (expandLast (weightsT rgba_values distances)) (splitRGB rgba_values))

/-- Source line `acc_map = tf.reduce_sum(weights, -1)`. -/
noncomputable def accMapT (rgba_values distances : RTensor) : RTensor :=
  reduceSumLast (weightsT rgba_values distances)

/-- The numeric body of `compute_radiance` (source lines 70-76), translated
operation by operation; `distances` already carries its trailing unit axis. -/
noncomputable def radiancePipeline (rgba_values distances : RTensor) :
    RTensor × RTensor × RTensor :=
  (rgbMapT rgba_values distances, expandLast (accMapT rgba_values distances),
    weightsT rgba_values distances)

/-- Embedding of `compute_radiance`: append the trailing unit axis to
`distances`, run the shape checks, and on success run the numeric
pipeline.  A failed check yields a `ShapeError` and no output. -/
noncomputable def compute_radiance (rgba_values distances : RTensor) :
    Except ShapeError (RTensor × RTensor × RTensor) :=
  match checkShapes rgba_values.shape (expandLast distances).shape with
  | some e => .error e
  | none => .ok (radiancePipeline rgba_values (expandLast distances))

/-- Per-sample opacity from the spec: `alpha_i = 1 - exp (-sigma_i * distance_i)`. -/
noncomputable def specAlpha (σ d : ℕ → ℝ) (i : ℕ) : ℝ :=
  1 - Real.exp (-(σ i) * d i)

/-- Transmittance from the spec: the exclusive prefix product
`T_i = prod over j < i of (1 - alpha_j + 1e-10)`, so `T_0 = 1`. -/
noncomputable def specT (σ d : ℕ → ℝ) (i : ℕ) : ℝ :=
  ∏ j ∈ Finset.range i, (1 - specAlpha σ d j + 1e-10)

/-- Per-sample weight from the spec: `weight_i = alpha_i * T_i`. -/
noncomputable def specWeight (σ d : ℕ → ℝ) (i : ℕ) : ℝ :=
  specAlpha σ d i * specT σ d i

/-- Accumulated opacity from the spec: `sum over i of weight_i`. -/
noncomputable def specOpacity (σ d : ℕ → ℝ) (n : ℕ) : ℝ :=
  ∑ i ∈ Finset.range n, specWeight σ d i

/-- Accumulated colour (one channel) from the spec:
`color = sum over i of weight_i * rgb_i`. -/
noncomputable def specColor (rgb σ d : ℕ → ℝ) (n : ℕ) : ℝ :=
  ∑ i ∈ Finset.range n, specWeight σ d i * rgb i

/-- The density channel of a samples valuation, as a per-ray function for
the batch element at multi-index `b`. -/
def raySigma (f : List ℕ → ℝ) (b : List ℕ) : ℕ → ℝ := fun j => f (b ++ [j, 3])

/-- One colour channel of a samples valuation, as a per-ray function. -/
def rayChan (f : List ℕ → ℝ) (b : List ℕ) (ch : ℕ) : ℕ → ℝ := fun j => f (b ++ [j, ch])

/-- A distances valuation as a per-ray function. -/
def rayDist (g : List ℕ → ℝ) (b : List ℕ) : ℕ → ℝ := fun j => g (b ++ [j])

/-- A samples tensor of shape `[B1..Bk, N, 4]` with valuation `f`. -/
def samplesT (bs : List ℕ) (n : ℕ) (f : List ℕ → ℝ) : RTensor := ⟨bs ++ [n, 4], f⟩

/-- A distances tensor of shape `[B1..Bk, N]` with valuation `g`. -/
def distT (bs : List ℕ) (n : ℕ) (g : List ℕ → ℝ) : RTensor := ⟨bs ++ [n], g⟩

/-- Samples valuation for `N = 3`: densities `[0, 0, 30]`, all colours `0`. -/
def c4Samples : List ℕ → ℝ := fun ix => if ix = [2, 3] then 30 else 0

/-- Samples valuation for `N = 3`: densities `[0, 30, 30]` (colour channels
also read `30` where not at `[0, 3]`, which is irrelevant for opacity). -/
def c6Low : List ℕ → ℝ := fun ix => if ix = [0, 3] then 0 else 30

/-- Samples valuation for `N = 3`: densities `[30, 30, 30]`. -/
def c6High : List ℕ → ℝ := fun _ => 30

/-- Samples valuation for `N = 2`: `rgb = [[1,0,0],[0,1,0]]`, `sigma = [1,1]`. -/
def c7Samples : List ℕ → ℝ := fun ix =>
  if ix = [0, 0] ∨ ix = [0, 3] ∨ ix = [1, 1] ∨ ix = [1, 3] then 1 else 0

/-- Samples valuation for `N = 2`: sample `0` has `rgb = (1,0,0)`, `sigma = 1`;
sample `1` is all zero. -/
def c9SamplesP : List ℕ → ℝ := fun ix => if ix = [0, 0] ∨ ix = [0, 3] then 1 else 0

/-- The transposition of the two sample indices of a rank-2 multi-index. -/
def swap2 : List ℕ → List ℕ := fun ix => (1 - ix.headD 0) :: ix.tail

/-- `c9SamplesP` with the two samples swapped (jointly permuted samples). -/
def c9SamplesQ : List ℕ → ℝ := fun ix => c9SamplesP (swap2 ix)

/-- Distances valuation, constant `1`. -/
def c9DistP : List ℕ → ℝ := fun _ => 1

/-- `c9DistP` with the two samples swapped (keeping per-sample pairing). -/
def c9DistQ : List ℕ → ℝ := fun ix => c9DistP (swap2 ix)

/-- The samples valuation obtained by reindexing the sample axis with `π`
(a permutation applied to axis `-2` of a `[B1..Bk, N, 4]` tensor). -/
def permSamples (π : ℕ → ℕ) (f : List ℕ → ℝ) : List ℕ → ℝ := fun ix =>
  f (ix.dropLast.dropLast ++ [π (ix.dropLast.getLastD 0), ix.getLastD 0])

/-- The distances valuation obtained by reindexing the sample axis with `π`. -/
def permDist (π : ℕ → ℕ) (g : List ℕ → ℝ) : List ℕ → ℝ := fun ix =>
  g (ix.dropLast ++ [π (ix.getLastD 0)])

theorem app2 (l : List ℕ) (a b : ℕ) : l ++ [a, b] = (l ++ [a]) ++ [b] := by
  simp

theorem lastD_concat (l : List ℕ) (a d : ℕ) : (l ++ [a]).getLastD d = a :=
  List.getLastD_concat d a l

theorem valid_length {s ix : List ℕ} (h : isValidIdx s ix = true) :
    ix.length = s.length := by
  induction s generalizing ix with
  | nil => cases ix with
    | nil => rfl
    | cons i t => simp [isValidIdx] at h
  | cons d sTail ih =>
    cases ix with
    | nil => simp [isValidIdx] at h
    | cons i t =>
      simp only [isValidIdx, Bool.and_eq_true] at h
      simp [ih h.2]

theorem isValidIdx_concat (s ix : List ℕ) (d i : ℕ) :
    isValidIdx (s ++ [d]) (ix ++ [i]) = (isValidIdx s ix && decide (i < d)) := by
  induction s generalizing ix with
  | nil =>
    cases ix with
    | nil => simp [isValidIdx]
    | cons a t =>
      simp only [List.nil_append, List.cons_append, isValidIdx]
      cases t with
      | nil => simp [isValidIdx]
      | cons b u => simp [isValidIdx]
  | cons a sTail ih =>
    cases ix with
    | nil =>
      simp only [List.cons_append, List.nil_append, isValidIdx]
      cases sTail with
      | nil => simp [isValidIdx]
      | cons b u => simp [isValidIdx]
    | cons b t =>
      simp only [List.cons_append, isValidIdx, List.append_eq, ih, Bool.and_assoc]

theorem clamp_of_valid {s ix : List ℕ} (h : isValidIdx s ix = true) :
    List.zipWith (fun d i => if d = 1 then 0 else i) s ix = ix := by
  induction s generalizing ix with
  | nil =>
    cases ix with
    | nil => rfl
    | cons i t => simp [isValidIdx] at h
  | cons d sTail ih =>
    cases ix with
    | nil => simp [isValidIdx] at h
    | cons i t =>
      simp only [isValidIdx, Bool.and_eq_true, decide_eq_true_eq] at h
      simp only [List.zipWith_cons_cons, ih h.2, List.cons.injEq, and_true]
      by_cases hd : d = 1
      · have hi0 : i = 0 := by omega
        simp [hd, hi0]
      · simp [hd]

theorem padTo_self {L : ℕ} {s : List ℕ} (h : s.length = L) : padTo L s = s := by
  simp [padTo, h]

theorem bproj_eq_clamp {s ix : List ℕ} (h : s.length = ix.length) :
    bproj s ix = List.zipWith (fun d i => if d = 1 then 0 else i) s ix := by
  simp [bproj, h]

theorem bproj_of_valid {s ix : List ℕ} (h : isValidIdx s ix = true) :
    bproj s ix = ix := by
  rw [bproj_eq_clamp (valid_length h).symm, clamp_of_valid h]

theorem zipWith_max_self (s : List ℕ) : List.zipWith Nat.max s s = s := by
  induction s with
  | nil => rfl
  | cons a t ih => simp [List.zipWith, ih]

theorem bshape_self (s : List ℕ) : bshape s s = s := by
  simp [bshape, padTo_self, zipWith_max_self]

theorem bshape_concat (s t : List ℕ) (a b : ℕ) (h : s.length = t.length) :
    bshape (s ++ [a]) (t ++ [b]) =
      List.zipWith Nat.max s t ++ [Nat.max a b] := by
  have hlen : (s ++ [a]).length = (t ++ [b]).length := by simp [h]
  have h1 : max (s ++ [a]).length (t ++ [b]).length = (s ++ [a]).length := by
    simp [hlen]
  rw [bshape, h1, padTo_self rfl, padTo_self hlen.symm,
    List.zipWith_append _ _ _ _ _ h]
  rfl

theorem bproj_concat {s ix : List ℕ} (a i : ℕ) (h : isValidIdx s ix = true) :
    bproj (s ++ [a]) (ix ++ [i]) = ix ++ [if a = 1 then 0 else i] := by
  have hlen := valid_length h
  rw [bproj_eq_clamp (by simp [hlen]), List.zipWith_append _ _ _ _ _ hlen.symm,
    clamp_of_valid h]
  rfl

theorem isValidIdx_concat_of {s ix : List ℕ} {d i : ℕ}
    (h : isValidIdx s ix = true) (hi : i < d) :
    isValidIdx (s ++ [d]) (ix ++ [i]) = true := by
  rw [isValidIdx_concat]
  simp [h, hi]

theorem dropLast_pair (l : List ℕ) (a b : ℕ) : (l ++ [a, b]).dropLast = l ++ [a] := by
  rw [app2, List.dropLast_concat]

theorem zip_self_all (s : List ℕ) :
    (List.zip s s).all (fun p => p.1 == p.2 || p.1 == 1 || p.2 == 1) = true := by
  induction s with
  | nil => rfl
  | cons a t ih => simp_all [List.zip_cons_cons]

theorem bcompat_self (s : List ℕ) : bcompat s s = true := by
  rw [bcompat, max_self, padTo_self rfl]
  exact zip_self_all s

theorem checkShapes_valid (bs : List ℕ) (n : ℕ) :
    checkShapes (bs ++ [n, 4]) ((bs ++ [n]) ++ [1]) = none := by
  have h4 : (bs ++ [n, 4]).getLastD 0 = 4 := by rw [app2, lastD_concat]
  have hl1 : ¬ (bs ++ [n, 4]).length ≤ 1 := by
    simp only [List.length_append, List.length_cons, List.length_nil]
    omega
  have hl2 : ¬ ((bs ++ [n]) ++ [1]).length ≤ 1 := by
    simp only [List.length_append, List.length_cons, List.length_nil]
    omega
  have hb1 : batchShape (bs ++ [n, 4]) = bs := by
    rw [batchShape, dropLast_pair, List.dropLast_concat]
  have hb2 : batchShape ((bs ++ [n]) ++ [1]) = bs := by
    rw [batchShape, List.dropLast_concat, List.dropLast_concat]
  have hd1 : dimNeg2 (bs ++ [n, 4]) = n := by
    rw [dimNeg2, dropLast_pair, lastD_concat]
  have hd2 : dimNeg2 ((bs ++ [n]) ++ [1]) = n := by
    rw [dimNeg2, List.dropLast_concat, lastD_concat]
  have hb3 : batchShape (bs ++ [n, 1]) = bs := by
    rw [batchShape, dropLast_pair, List.dropLast_concat]
  have hd3 : dimNeg2 (bs ++ [n, 1]) = n := by
    rw [dimNeg2, dropLast_pair, lastD_concat]
  simp [checkShapes, h4, hl1, hl2, hb1, hb2, hd1, hd2, hb3, hd3, bcompat_self]

theorem compute_radiance_ok (r d : RTensor)
    (h : checkShapes r.shape (d.shape ++ [1]) = none) :
    compute_radiance r d = .ok (radiancePipeline r (expandLast d)) := by
  have hs : (expandLast d).shape = d.shape ++ [1] := rfl
  unfold compute_radiance
  rw [hs, h]

theorem compute_radiance_err (r d : RTensor) (e : ShapeError)
    (h : checkShapes r.shape (d.shape ++ [1]) = some e) :
    compute_radiance r d = .error e := by
  have hs : (expandLast d).shape = d.shape ++ [1] := rfl
  unfold compute_radiance
  rw [hs, h]

theorem splitSigma_shape (bs : List ℕ) (n : ℕ) (f : List ℕ → ℝ) :
    (splitSigma (samplesT bs n f)).shape = (bs ++ [n]) ++ [1] := by
  simp only [splitSigma, samplesT]
  rw [dropLast_pair]

theorem alphaT_shape (bs : List ℕ) (n : ℕ) (f g : List ℕ → ℝ) :
    (alphaT (samplesT bs n f) (expandLast (distT bs n g))).shape = bs ++ [n] := by
  simp only [alphaT, squeezeLast, tmap, ewMul, splitSigma, expandLast, samplesT, distT]
  rw [dropLast_pair, bshape_self, List.dropLast_concat]

theorem alphaT_eval (bs : List ℕ) (n : ℕ) (f g : List ℕ → ℝ) (b : List ℕ) (j : ℕ)
    (hb : isValidIdx bs b = true) (hj : j < n) :
    (alphaT (samplesT bs n f) (expandLast (distT bs n g))).val (b ++ [j])
      = specAlpha (raySigma f b) (rayDist g b) j := by
  have hvbj : isValidIdx (bs ++ [n]) (b ++ [j]) = true := isValidIdx_concat_of hb hj
  have hv0 : isValidIdx ((bs ++ [n]) ++ [1]) ((b ++ [j]) ++ [0]) = true :=
    isValidIdx_concat_of hvbj one_pos
  simp only [alphaT, squeezeLast, tmap, ewMul, expandLast, splitSigma, samplesT, distT]
  rw [dropLast_pair, bproj_of_valid hv0, List.dropLast_concat, lastD_concat]
  simp only [Nat.zero_add, specAlpha, raySigma, rayDist]
  rw [app2]

theorem cum_eval (bs : List ℕ) (n : ℕ) (f g : List ℕ → ℝ) (b : List ℕ) (i : ℕ)
    (hb : isValidIdx bs b = true) (hi : i ≤ n) :
    (cumprodExLast (tmap (fun x => 1 - x + 1e-10)
        (alphaT (samplesT bs n f) (expandLast (distT bs n g))))).val (b ++ [i])
      = specT (raySigma f b) (rayDist g b) i := by
  simp only [cumprodExLast, tmap, lastD_concat, List.dropLast_concat, specT]
  refine Finset.prod_congr rfl ?_
  intro j hj
  rw [alphaT_eval bs n f g b j hb (lt_of_lt_of_le (Finset.mem_range.mp hj) hi)]

theorem weightsT_shape (bs : List ℕ) (n : ℕ) (f g : List ℕ → ℝ) :
    (weightsT (samplesT bs n f) (expandLast (distT bs n g))).shape = bs ++ [n] := by
  simp only [weightsT, ewMul, cumprodExLast, tmap, alphaT_shape, bshape_self]

theorem weightsT_eval (bs : List ℕ) (n : ℕ) (f g : List ℕ → ℝ) (b : List ℕ) (i : ℕ)
    (hb : isValidIdx bs b = true) (hi : i < n) :
    (weightsT (samplesT bs n f) (expandLast (distT bs n g))).val (b ++ [i])
      = specWeight (raySigma f b) (rayDist g b) i := by
  have hvbi : isValidIdx (bs ++ [n]) (b ++ [i]) = true := isValidIdx_concat_of hb hi
  have hcs : (cumprodExLast (tmap (fun x => 1 - x + 1e-10)
      (alphaT (samplesT bs n f) (expandLast (distT bs n g))))).shape
      = (alphaT (samplesT bs n f) (expandLast (distT bs n g))).shape := rfl
  simp only [weightsT, ewMul, hcs, alphaT_shape, bproj_of_valid hvbi]
  rw [alphaT_eval bs n f g b i hb hi, cum_eval bs n f g b i hb (le_of_lt hi), specWeight]

theorem expandLast_shape (a : RTensor) : (expandLast a).shape = a.shape ++ [1] := rfl

theorem expandLast_val (a : RTensor) (ix : List ℕ) :
    (expandLast a).val ix = a.val ix.dropLast := rfl

theorem ewMul_shape (a b : RTensor) : (ewMul a b).shape = bshape a.shape b.shape := rfl

theorem ewMul_val (a b : RTensor) (ix : List ℕ) :
    (ewMul a b).val ix = a.val (bproj a.shape ix) * b.val (bproj b.shape ix) := rfl

theorem splitRGB_shape (a : RTensor) : (splitRGB a).shape = a.shape.dropLast ++ [3] := rfl

theorem splitRGB_val (a : RTensor) (ix : List ℕ) : (splitRGB a).val ix = a.val ix := rfl

theorem reduceSumLast_shape (a : RTensor) : (reduceSumLast a).shape = a.shape.dropLast := rfl

theorem reduceSumLast_val (a : RTensor) (ix : List ℕ) :
    (reduceSumLast a).val ix
      = ∑ j ∈ Finset.range (a.shape.getLastD 0), a.val (ix ++ [j]) := rfl

theorem reduceSumSnd_shape (a : RTensor) :
    (reduceSumSnd a).shape = batchShape a.shape ++ [a.shape.getLastD 0] := rfl

theorem reduceSumSnd_val (a : RTensor) (ix : List ℕ) :
    (reduceSumSnd a).val ix
      = ∑ j ∈ Finset.range (dimNeg2 a.shape), a.val (ix.dropLast ++ [j, ix.getLastD 0]) := rfl

theorem samplesT_shape (bs : List ℕ) (n : ℕ) (f : List ℕ → ℝ) :
    (samplesT bs n f).shape = bs ++ [n, 4] := rfl

theorem accMapT_def (r d : RTensor) : accMapT r d = reduceSumLast (weightsT r d) := rfl

theorem rgbMapT_def (r d : RTensor) :
    rgbMapT r d = reduceSumSnd (ewMul (expandLast (weightsT r d)) (splitRGB r)) := rfl

theorem opacity_shape (bs : List ℕ) (n : ℕ) (f g : List ℕ → ℝ) :
    (expandLast (accMapT (samplesT bs n f) (expandLast (distT bs n g)))).shape
      = bs ++ [1] := by
  simp only [expandLast_shape, accMapT_def, reduceSumLast_shape, weightsT_shape,
    List.dropLast_concat]

theorem opacity_eval (bs : List ℕ) (n : ℕ) (f g : List ℕ → ℝ) (b : List ℕ)
    (hb : isValidIdx bs b = true) :
    (expandLast (accMapT (samplesT bs n f) (expandLast (distT bs n g)))).val (b ++ [0])
      = specOpacity (raySigma f b) (rayDist g b) n := by
  simp only [expandLast_val, accMapT_def, reduceSumLast_val, weightsT_shape,
    List.dropLast_concat, lastD_concat, specOpacity]
  exact Finset.sum_congr rfl fun i hi =>
    weightsT_eval bs n f g b i hb (Finset.mem_range.mp hi)

theorem bshape_one_three (s : List ℕ) :
    bshape (s ++ [1]) (s ++ [3]) = s ++ [3] := by
  rw [bshape_concat _ _ _ _ rfl, zipWith_max_self]
  rfl

theorem rgbMap_shape (bs : List ℕ) (n : ℕ) (f g : List ℕ → ℝ) :
    (rgbMapT (samplesT bs n f) (expandLast (distT bs n g))).shape = bs ++ [3] := by
  simp only [rgbMapT_def, reduceSumSnd_shape, ewMul_shape, expandLast_shape,
    splitRGB_shape, samplesT_shape, weightsT_shape, dropLast_pair, bshape_one_three,
    batchShape, List.dropLast_concat, lastD_concat]

theorem dimNeg2_concat2 (s : List ℕ) (a b : ℕ) : dimNeg2 ((s ++ [a]) ++ [b]) = a := by
  rw [dimNeg2, List.dropLast_concat, lastD_concat]

set_option maxHeartbeats 1600000 in
theorem rgbMap_eval (bs : List ℕ) (n : ℕ) (f g : List ℕ → ℝ) (b : List ℕ) (ch : ℕ)
    (hb : isValidIdx bs b = true) :
    (rgbMapT (samplesT bs n f) (expandLast (distT bs n g))).val (b ++ [ch])
      = specColor (rayChan f b ch) (raySigma f b) (rayDist g b) n := by
  simp only [rgbMapT_def, reduceSumSnd_val, ewMul_val, ewMul_shape, expandLast_val,
    expandLast_shape, splitRGB_val, splitRGB_shape, samplesT_shape, weightsT_shape,
    dropLast_pair, bshape_one_three, dimNeg2_concat2, List.dropLast_concat, lastD_concat,
    specColor, rayChan]
  refine Finset.sum_congr rfl ?_
  intro j hj
  have hj' : j < n := Finset.mem_range.mp hj
  have hvbj : isValidIdx (bs ++ [n]) (b ++ [j]) = true := isValidIdx_concat_of hb hj'
  rw [app2, bproj_concat _ _ hvbj, bproj_concat _ _ hvbj,
    show (if (1 : ℕ) = 1 then (0 : ℕ) else ch) = 0 from by norm_num,
    show (if (3 : ℕ) = 1 then (0 : ℕ) else ch) = ch from by norm_num,
    List.dropLast_concat, weightsT_eval bs n f g b j hb hj']
  rfl

theorem compute_radiance_eval (bs : List ℕ) (n : ℕ) (f g : List ℕ → ℝ) :
    compute_radiance (samplesT bs n f) (distT bs n g)
      = .ok (rgbMapT (samplesT bs n f) (expandLast (distT bs n g)),
          expandLast (accMapT (samplesT bs n f) (expandLast (distT bs n g))),
          weightsT (samplesT bs n f) (expandLast (distT bs n g))) :=
  compute_radiance_ok _ _ (checkShapes_valid bs n)

theorem checkShapes_some_iff (r dsh : List ℕ) :
    (∃ e, checkShapes r dsh = some e) ↔
      (r.getLastD 0 ≠ 4 ∨ r.length ≤ 1 ∨ dsh.length ≤ 1
        ∨ bcompat (batchShape r) (batchShape dsh) = false
        ∨ dimNeg2 r ≠ dimNeg2 dsh) := by
  unfold checkShapes
  split_ifs with h1 h2 h3 h4 h5 <;> simp_all

/-- Claim C1: for every samples array of shape `[B1..Bk, N, 4]` and distances
array of shape `[B1..Bk, N]`, `compute_radiance` succeeds and returns exactly
the values of the spec formulas: per-sample weights `alpha_i * T_i` with
`alpha_i = 1 - exp(-sigma_i * distance_i)` and `T_i` the exclusive prefix
product of `(1 - alpha_j + 1e-10)`, per-channel colour
`sum_i weight_i * rgb_i`, opacity `sum_i weight_i` kept as a trailing
singleton axis, and weights of shape `[B1..Bk, N]`. -/
theorem radiance_matches_spec_formulas (bs : List ℕ) (n : ℕ) (f g : List ℕ → ℝ) :
    ∃ c o w : RTensor,
      compute_radiance (samplesT bs n f) (distT bs n g) = .ok (c, o, w)
      ∧ c.shape = bs ++ [3] ∧ o.shape = bs ++ [1] ∧ w.shape = bs ++ [n]
      ∧ (∀ b i, isValidIdx bs b = true → i < n →
          w.val (b ++ [i]) = specWeight (raySigma f b) (rayDist g b) i)
      ∧ (∀ b, isValidIdx bs b = true →
          o.val (b ++ [0]) = specOpacity (raySigma f b) (rayDist g b) n)
      ∧ (∀ b ch, isValidIdx bs b = true → ch < 3 →
          c.val (b ++ [ch]) = specColor (rayChan f b ch) (raySigma f b) (rayDist g b) n) :=
  ⟨_, _, _, compute_radiance_eval bs n f g, rgbMap_shape bs n f g, opacity_shape bs n f g,
    weightsT_shape bs n f g,
    fun b i hb hi => weightsT_eval bs n f g b i hb hi,
    fun b hb => opacity_eval bs n f g b hb,
    fun b ch hb _ => rgbMap_eval bs n f g b ch hb⟩

/-- Witness for C1 at a concrete input. -/
theorem radiance_matches_spec_formulas_witness :
    ∃ c o w : RTensor,
      compute_radiance (samplesT [] 1 (fun _ => 1)) (distT [] 1 (fun _ => 1))
        = .ok (c, o, w) := by
  obtain ⟨c, o, w, h, -, -, -, -, -, -⟩ :=
    radiance_matches_spec_formulas [] 1 (fun _ => 1) (fun _ => 1)
  exact ⟨c, o, w, h⟩

/-- Claim C2: `compute_radiance` raises a `ShapeError` (returning no output)
exactly when a shape precondition is violated: last axis of samples not `4`,
rank of samples not exceeding `1`, rank of distances (after the appended
trailing unit axis) not exceeding `1`, batch dimensions not broadcast
compatible, or differing sample-count axes.  The check is performed before
the numeric pipeline runs. -/
theorem shape_violation_iff_error (r d : RTensor) :
    (∃ e, compute_radiance r d = .error e) ↔
      (r.shape.getLastD 0 ≠ 4 ∨ r.shape.length ≤ 1 ∨ (d.shape ++ [1]).length ≤ 1
        ∨ bcompat (batchShape r.shape) (batchShape (d.shape ++ [1])) = false
        ∨ dimNeg2 r.shape ≠ dimNeg2 (d.shape ++ [1])) := by
  rw [← checkShapes_some_iff]
  constructor
  · rintro ⟨e, he⟩
    cases hc : checkShapes r.shape (d.shape ++ [1]) with
    | some e2 => exact ⟨e2, rfl⟩
    | none =>
      rw [compute_radiance_ok r d hc] at he
      simp at he
  · rintro ⟨e, he⟩
    exact ⟨e, compute_radiance_err r d e he⟩

/-- Witness for C2: a samples tensor of shape `[4, 5, 3]` (last axis `3`)
is rejected with a `ShapeError`. -/
theorem shape_violation_iff_error_witness :
    ∃ e, compute_radiance ⟨[4, 5, 3], fun _ => 0⟩ ⟨[4, 5], fun _ => 0⟩ = .error e :=
  (shape_violation_iff_error ⟨[4, 5, 3], fun _ => 0⟩ ⟨[4, 5], fun _ => 0⟩).mpr
    (Or.inl (by decide))

theorem specAlpha_zero {σ d : ℕ → ℝ} {i : ℕ} (h : σ i = 0) : specAlpha σ d i = 0 := by
  simp [specAlpha, h]

theorem specWeight_zero {σ d : ℕ → ℝ} {i : ℕ} (h : σ i = 0) : specWeight σ d i = 0 := by
  rw [specWeight, specAlpha_zero h, zero_mul]

/-- Claim C3: with all densities zero, `compute_radiance` returns weights
that are all exactly `0`, opacity exactly `0` and colour exactly `0`,
whatever the distances are. -/
theorem zero_density_gives_zero_outputs (bs : List ℕ) (n : ℕ) (f g : List ℕ → ℝ)
    (hσ : ∀ b i, isValidIdx bs b = true → i < n → f (b ++ [i, 3]) = 0) :
    ∃ c o w : RTensor,
      compute_radiance (samplesT bs n f) (distT bs n g) = .ok (c, o, w)
      ∧ (∀ b i, isValidIdx bs b = true → i < n → w.val (b ++ [i]) = 0)
      ∧ (∀ b, isValidIdx bs b = true → o.val (b ++ [0]) = 0)
      ∧ (∀ b ch, isValidIdx bs b = true → ch < 3 → c.val (b ++ [ch]) = 0) := by
  refine ⟨_, _, _, compute_radiance_eval bs n f g, ?_, ?_, ?_⟩
  · intro b i hb hi
    rw [weightsT_eval bs n f g b i hb hi]
    exact specWeight_zero (hσ b i hb hi)
  · intro b hb
    rw [opacity_eval bs n f g b hb, specOpacity]
    exact Finset.sum_eq_zero fun i hi =>
      specWeight_zero (hσ b i hb (Finset.mem_range.mp hi))
  · intro b ch hb _
    rw [rgbMap_eval bs n f g b ch hb, specColor]
    exact Finset.sum_eq_zero fun i hi => by
      rw [specWeight_zero (hσ b i hb (Finset.mem_range.mp hi)), zero_mul]

/-- Witness for C3 at a concrete all-zero input. -/
theorem zero_density_gives_zero_outputs_witness :
    ∃ c o w : RTensor,
      compute_radiance (samplesT [] 1 (fun _ => 0)) (distT [] 1 (fun _ => 7))
        = .ok (c, o, w)
      ∧ (∀ b i, isValidIdx [] b = true → i < 1 → w.val (b ++ [i]) = 0) := by
  obtain ⟨c, o, w, h, hw, -, -⟩ :=
    zero_density_gives_zero_outputs [] 1 (fun _ => 0) (fun _ => 7)
      (fun b i _ _ => rfl)
  exact ⟨c, o, w, h, hw⟩

theorem specAlpha_lt_one (σ d : ℕ → ℝ) (i : ℕ) : specAlpha σ d i < 1 := by
  rw [specAlpha]
  linarith [Real.exp_pos (-(σ i) * d i)]

theorem factor_pos (σ d : ℕ → ℝ) (i : ℕ) : 0 < 1 - specAlpha σ d i + 1e-10 := by
  rw [specAlpha]
  linarith [Real.exp_pos (-(σ i) * d i)]

theorem specT_pos (σ d : ℕ → ℝ) (i : ℕ) : 0 < specT σ d i := by
  rw [specT]
  exact Finset.prod_pos fun j _ => factor_pos σ d j

theorem specAlpha_nonneg (σ d : ℕ → ℝ) (i : ℕ) (hσ : 0 ≤ σ i) (hd : 0 ≤ d i) :
    0 ≤ specAlpha σ d i := by
  rw [specAlpha]
  have h1 : -(σ i) * d i ≤ 0 := by nlinarith
  have h2 : Real.exp (-(σ i) * d i) ≤ 1 := Real.exp_le_one_iff.mpr h1
  linarith

theorem specWeight_nonneg (σ d : ℕ → ℝ) (i : ℕ) (hσ : 0 ≤ σ i) (hd : 0 ≤ d i) :
    0 ≤ specWeight σ d i :=
  mul_nonneg (specAlpha_nonneg σ d i hσ hd) (le_of_lt (specT_pos σ d i))

theorem specOpacity_nonneg (σ d : ℕ → ℝ) (n : ℕ)
    (hσ : ∀ j, j < n → 0 ≤ σ j) (hd : ∀ j, j < n → 0 ≤ d j) :
    0 ≤ specOpacity σ d n := by
  rw [specOpacity]
  exact Finset.sum_nonneg fun i hi =>
    specWeight_nonneg σ d i (hσ i (Finset.mem_range.mp hi)) (hd i (Finset.mem_range.mp hi))

theorem specOpacity_succ (σ d : ℕ → ℝ) (m : ℕ) :
    specOpacity σ d (m + 1) = specOpacity σ d m + specWeight σ d m := by
  rw [specOpacity, Finset.sum_range_succ, specOpacity]

theorem specT_succ (σ d : ℕ → ℝ) (m : ℕ) :
    specT σ d (m + 1) = specT σ d m * (1 - specAlpha σ d m + 1e-10) := by
  rw [specT, Finset.prod_range_succ, specT]

theorem specOpacity_add_T_le (σ d : ℕ → ℝ) (n : ℕ)
    (hσ : ∀ j, j < n → 0 ≤ σ j) (hd : ∀ j, j < n → 0 ≤ d j) :
    specOpacity σ d n + specT σ d n ≤ (1 + 1e-10) ^ n := by
  induction n with
  | zero => simp [specOpacity, specT]
  | succ m ih =>
    have hσ' : ∀ j, j < m → 0 ≤ σ j := fun j hj => hσ j (Nat.lt_succ_of_lt hj)
    have hd' : ∀ j, j < m → 0 ≤ d j := fun j hj => hd j (Nat.lt_succ_of_lt hj)
    have hOm : 0 ≤ specOpacity σ d m := specOpacity_nonneg σ d m hσ' hd'
    have hTm : 0 < specT σ d m := specT_pos σ d m
    have hαm : specAlpha σ d m < 1 := specAlpha_lt_one σ d m
    have hstep : specOpacity σ d (m + 1) + specT σ d (m + 1)
        = specOpacity σ d m + specT σ d m * (1 + 1e-10) := by
      rw [specOpacity_succ, specT_succ, specWeight]
      ring
    have hrec := ih hσ' hd'
    rw [hstep, pow_succ]
    nlinarith

theorem specOpacity_le (σ d : ℕ → ℝ) (n : ℕ)
    (hσ : ∀ j, j < n → 0 ≤ σ j) (hd : ∀ j, j < n → 0 ≤ d j) :
    specOpacity σ d n ≤ (1 + 1e-10) ^ n := by
  have h := specOpacity_add_T_le σ d n hσ hd
  have hT := specT_pos σ d n
  linarith

theorem specWeight_le (σ d : ℕ → ℝ) (i n : ℕ) (hin : i < n)
    (hσ : ∀ j, j < n → 0 ≤ σ j) (hd : ∀ j, j < n → 0 ≤ d j) :
    specWeight σ d i ≤ (1 + 1e-10) ^ n := by
  have h1 : specWeight σ d i ≤ specOpacity σ d n := by
    rw [specOpacity]
    exact Finset.single_le_sum
      (fun j hj => specWeight_nonneg σ d j (hσ j (Finset.mem_range.mp hj))
        (hd j (Finset.mem_range.mp hj)))
      (Finset.mem_range.mpr hin)
  exact le_trans h1 (specOpacity_le σ d n hσ hd)

theorem specAlpha_mono {σ σ' d : ℕ → ℝ} {i : ℕ} (hd : 0 ≤ d i) (h : σ i ≤ σ' i) :
    specAlpha σ d i ≤ specAlpha σ' d i := by
  rw [specAlpha, specAlpha]
  have h1 : -(σ' i) * d i ≤ -(σ i) * d i :=
    mul_le_mul_of_nonneg_right (neg_le_neg h) hd
  have h2 := Real.exp_le_exp.mpr h1
  linarith

theorem specT_congr {σ σ' d d' : ℕ → ℝ} {i : ℕ}
    (hσ : ∀ j, j < i → σ j = σ' j) (hd : ∀ j, j < i → d j = d' j) :
    specT σ d i = specT σ' d' i := by
  rw [specT, specT]
  refine Finset.prod_congr rfl fun j hj => ?_
  have hj' := Finset.mem_range.mp hj
  rw [specAlpha, specAlpha, hσ j hj', hd j hj']

theorem specWeight_mono_at {σ σ' d : ℕ → ℝ} {i : ℕ} (hd : 0 ≤ d i)
    (hle : σ i ≤ σ' i) (heq : ∀ j, j < i → σ j = σ' j) :
    specWeight σ d i ≤ specWeight σ' d i := by
  rw [specWeight, specWeight, specT_congr heq (fun j _ => rfl)]
  exact mul_le_mul_of_nonneg_right (specAlpha_mono hd hle) (le_of_lt (specT_pos σ' d i))

theorem specOpacity_mono_last {σ σ' d : ℕ → ℝ} {n : ℕ} (hn : 0 < n)
    (hd : 0 ≤ d (n - 1)) (heq : ∀ j, j < n - 1 → σ j = σ' j)
    (hle : σ (n - 1) ≤ σ' (n - 1)) :
    specOpacity σ d n ≤ specOpacity σ' d n := by
  obtain ⟨m, rfl⟩ : ∃ m, n = m + 1 := ⟨n - 1, (Nat.succ_pred_eq_of_pos hn).symm⟩
  simp only [Nat.add_sub_cancel] at heq hle hd
  rw [specOpacity_succ, specOpacity_succ]
  have h1 : specOpacity σ d m = specOpacity σ' d m := by
    rw [specOpacity, specOpacity]
    refine Finset.sum_congr rfl fun i hi => ?_
    have hi' := Finset.mem_range.mp hi
    rw [specWeight, specWeight, specAlpha, specAlpha, heq i hi',
      specT_congr (fun j hj => heq j (lt_trans hj hi')) (fun j _ => rfl)]
  have h2 : specWeight σ d m ≤ specWeight σ' d m := specWeight_mono_at hd hle heq
  linarith

theorem exp_thirty_gt : (1e12 : ℝ) < Real.exp 30 := by
  have h1 : (2.7182818283 : ℝ) ^ (30 : ℕ) ≤ Real.exp 1 ^ (30 : ℕ) :=
    pow_le_pow_left (by norm_num) (le_of_lt Real.exp_one_gt_d9) 30
  have h2 : Real.exp 1 ^ (30 : ℕ) = Real.exp 30 := by
    rw [← Real.exp_nat_mul]
    norm_num
  rw [← h2]
  calc (1e12 : ℝ) < 2.7182818283 ^ (30 : ℕ) := by norm_num
    _ ≤ Real.exp 1 ^ (30 : ℕ) := h1

theorem exp_neg_thirty_lt : Real.exp (-30) < 1e-12 := by
  rw [Real.exp_neg]
  have h2 : (Real.exp 30)⁻¹ < (1e12 : ℝ)⁻¹ := by
    apply inv_lt_inv_of_lt (by norm_num) exp_thirty_gt
  calc (Real.exp 30)⁻¹ < (1e12 : ℝ)⁻¹ := h2
    _ = 1e-12 := by norm_num

theorem exp_neg_one_gt : (0.367879 : ℝ) < Real.exp (-1) := by
  rw [Real.exp_neg]
  have h2 : (2.7182818286 : ℝ)⁻¹ < (Real.exp 1)⁻¹ :=
    inv_lt_inv_of_lt (Real.exp_pos 1) Real.exp_one_lt_d9
  calc (0.367879 : ℝ) < (2.7182818286 : ℝ)⁻¹ := by norm_num
    _ < (Real.exp 1)⁻¹ := h2

theorem exp_neg_one_lt : Real.exp (-1) < 0.3678795 := by
  rw [Real.exp_neg]
  have h2 : (Real.exp 1)⁻¹ < (2.7182818283 : ℝ)⁻¹ :=
    inv_lt_inv_of_lt (by norm_num) Real.exp_one_gt_d9
  calc (Real.exp 1)⁻¹ < (2.7182818283 : ℝ)⁻¹ := h2
    _ < 0.3678795 := by norm_num

/-- Counterexample to claim C4 as stated: with non-negative densities
`[0, 0, 30]` and distances `1`, the third weight exceeds `1 + 1e-10`
in exact arithmetic, because the two stabilising epsilons compound in the
cumulative product. -/
theorem weight_bound_counterexample :
    (∀ ix, 0 ≤ c4Samples ix) ∧
    ∃ c o w : RTensor,
      compute_radiance (samplesT [] 3 c4Samples) (distT [] 3 (fun _ => 1)) = .ok (c, o, w)
      ∧ 1 + 1e-10 < w.val [2] := by
  constructor
  · intro ix
    rw [c4Samples]
    split_ifs <;> norm_num
  refine ⟨_, _, _, compute_radiance_eval [] 3 c4Samples (fun _ => 1), ?_⟩
  have h := weightsT_eval [] 3 c4Samples (fun _ => 1) [] 2 rfl (by norm_num)
  simp only [List.nil_append] at h
  rw [h]
  have hE := exp_neg_thirty_lt
  have hEpos := Real.exp_pos (-30 : ℝ)
  norm_num [specWeight, specT, specAlpha, raySigma, rayDist, c4Samples,
    Finset.prod_range_succ, Finset.prod_range_zero, List.cons.injEq]
  nlinarith

/-- Claim C4 (amended): for non-negative densities and distances every
weight lies in `[0, (1 + 1e-10)^N]` and the weights sum to at most
`(1 + 1e-10)^N`; the bound `1 + 1e-10` claimed by the spec fails once
three or more samples compound the stabilising epsilon. -/
theorem weight_bound_amended (bs : List ℕ) (n : ℕ) (f g : List ℕ → ℝ)
    (hσ : ∀ b i, isValidIdx bs b = true → i < n → 0 ≤ f (b ++ [i, 3]))
    (hd : ∀ b i, isValidIdx bs b = true → i < n → 0 ≤ g (b ++ [i])) :
    ∃ c o w : RTensor,
      compute_radiance (samplesT bs n f) (distT bs n g) = .ok (c, o, w)
      ∧ (∀ b i, isValidIdx bs b = true → i < n →
          0 ≤ w.val (b ++ [i]) ∧ w.val (b ++ [i]) ≤ (1 + 1e-10) ^ n)
      ∧ (∀ b, isValidIdx bs b = true →
          ∑ i ∈ Finset.range n, w.val (b ++ [i]) ≤ (1 + 1e-10) ^ n) := by
  refine ⟨_, _, _, compute_radiance_eval bs n f g, ?_, ?_⟩
  · intro b i hb hi
    rw [weightsT_eval bs n f g b i hb hi]
    exact ⟨specWeight_nonneg _ _ i (hσ b i hb hi) (hd b i hb hi),
      specWeight_le _ _ i n hi (fun j hj => hσ b j hb hj) (fun j hj => hd b j hb hj)⟩
  · intro b hb
    have hsum : (∑ i ∈ Finset.range n,
        (weightsT (samplesT bs n f) (expandLast (distT bs n g))).val (b ++ [i]))
        = specOpacity (raySigma f b) (rayDist g b) n := by
      rw [specOpacity]
      exact Finset.sum_congr rfl fun i hi =>
        weightsT_eval bs n f g b i hb (Finset.mem_range.mp hi)
    rw [hsum]
    exact specOpacity_le _ _ n (fun j hj => hσ b j hb hj) (fun j hj => hd b j hb hj)

/-- Witness for the amended C4 at a concrete input. -/
theorem weight_bound_amended_witness :
    ∃ c o w : RTensor,
      compute_radiance (samplesT [] 1 (fun _ => 1)) (distT [] 1 (fun _ => 1))
        = .ok (c, o, w)
      ∧ (∀ b i, isValidIdx [] b = true → i < 1 →
          0 ≤ w.val (b ++ [i]) ∧ w.val (b ++ [i]) ≤ (1 + 1e-10) ^ 1) := by
  obtain ⟨c, o, w, h, hw, -⟩ :=
    weight_bound_amended [] 1 (fun _ => 1) (fun _ => 1)
      (fun b i _ _ => zero_le_one) (fun b i _ _ => zero_le_one)
  exact ⟨c, o, w, h, hw⟩

/-- Counterexample to claim C5 as stated: with non-negative densities
`[30, 30]` and distances `1`, the returned opacity strictly exceeds `1`
in exact arithmetic (by about `1e-10`). -/
theorem opacity_bound_counterexample :
    (∀ ix : List ℕ, (0 : ℝ) ≤ (fun _ : List ℕ => (30 : ℝ)) ix) ∧
    ∃ c o w : RTensor,
      compute_radiance (samplesT [] 2 (fun _ => 30)) (distT [] 2 (fun _ => 1))
        = .ok (c, o, w)
      ∧ 1 < o.val [0] := by
  refine ⟨fun ix => by norm_num, _, _, _,
    compute_radiance_eval [] 2 (fun _ => 30) (fun _ => 1), ?_⟩
  have h := opacity_eval [] 2 (fun _ => 30) (fun _ => 1) [] rfl
  simp only [List.nil_append] at h
  rw [h]
  have hE := exp_neg_thirty_lt
  have hEpos := Real.exp_pos (-30 : ℝ)
  norm_num [specOpacity, specWeight, specT, specAlpha, raySigma, rayDist,
    Finset.sum_range_succ, Finset.sum_range_zero,
    Finset.prod_range_succ, Finset.prod_range_zero]
  nlinarith

/-- Claim C5 (amended): for non-negative densities and distances the
returned opacity lies in `[0, (1 + 1e-10)^N]`; the upper bound `1` claimed
by the spec fails by about `N * 1e-10` because of the stabilising epsilon. -/
theorem opacity_bound_amended (bs : List ℕ) (n : ℕ) (f g : List ℕ → ℝ)
    (hσ : ∀ b i, isValidIdx bs b = true → i < n → 0 ≤ f (b ++ [i, 3]))
    (hd : ∀ b i, isValidIdx bs b = true → i < n → 0 ≤ g (b ++ [i])) :
    ∃ c o w : RTensor,
      compute_radiance (samplesT bs n f) (distT bs n g) = .ok (c, o, w)
      ∧ (∀ b, isValidIdx bs b = true →
          0 ≤ o.val (b ++ [0]) ∧ o.val (b ++ [0]) ≤ (1 + 1e-10) ^ n) := by
  refine ⟨_, _, _, compute_radiance_eval bs n f g, ?_⟩
  intro b hb
  rw [opacity_eval bs n f g b hb]
  exact ⟨specOpacity_nonneg _ _ n (fun j hj => hσ b j hb hj) (fun j hj => hd b j hb hj),
    specOpacity_le _ _ n (fun j hj => hσ b j hb hj) (fun j hj => hd b j hb hj)⟩

/-- Witness for the amended C5 at a concrete input. -/
theorem opacity_bound_amended_witness :
    ∃ c o w : RTensor,
      compute_radiance (samplesT [] 1 (fun _ => 1)) (distT [] 1 (fun _ => 1))
        = .ok (c, o, w)
      ∧ (∀ b, isValidIdx [] b = true →
          0 ≤ o.val (b ++ [0]) ∧ o.val (b ++ [0]) ≤ (1 + 1e-10) ^ 1) := by
  obtain ⟨c, o, w, h, ho⟩ :=
    opacity_bound_amended [] 1 (fun _ => 1) (fun _ => 1)
      (fun b i _ _ => zero_le_one) (fun b i _ _ => zero_le_one)
  exact ⟨c, o, w, h, ho⟩

/-- Counterexample to claim C6 as stated: increasing the first density from
`0` to `30` (all else fixed, everything non-negative) strictly decreases
the returned opacity, because the stabilising epsilon contributes
`epsilon * T_i` terms that shrink when earlier samples absorb more. -/
theorem opacity_monotonicity_counterexample :
    (∀ ix, 0 ≤ c6Low ix) ∧ (∀ ix, c6Low ix ≤ c6High ix)
    ∧ (∀ ix, ix ≠ [0, 3] → c6Low ix = c6High ix) ∧ c6Low [0, 3] < c6High [0, 3]
    ∧ ∃ cL oL wL cH oH wH : RTensor,
      compute_radiance (samplesT [] 3 c6Low) (distT [] 3 (fun _ => 1)) = .ok (cL, oL, wL)
      ∧ compute_radiance (samplesT [] 3 c6High) (distT [] 3 (fun _ => 1)) = .ok (cH, oH, wH)
      ∧ oH.val [0] < oL.val [0] := by
  refine ⟨?_, ?_, ?_, ?_, _, _, _, _, _, _,
    compute_radiance_eval [] 3 c6Low (fun _ => 1),
    compute_radiance_eval [] 3 c6High (fun _ => 1), ?_⟩
  · intro ix
    rw [c6Low]
    split_ifs <;> norm_num
  · intro ix
    rw [c6Low, c6High]
    split_ifs <;> norm_num
  · intro ix hix
    rw [c6Low, c6High, if_neg hix]
  · rw [c6Low, c6High, if_pos rfl]
    norm_num
  · have hL := opacity_eval [] 3 c6Low (fun _ => 1) [] rfl
    have hH := opacity_eval [] 3 c6High (fun _ => 1) [] rfl
    simp only [List.nil_append] at hL hH
    rw [hL, hH]
    have hE := exp_neg_thirty_lt
    have hEpos := Real.exp_pos (-30 : ℝ)
    norm_num [specOpacity, specWeight, specT, specAlpha, raySigma, rayDist,
      c6Low, c6High, List.cons.injEq, Real.exp_zero,
      Finset.sum_range_succ, Finset.sum_range_zero,
      Finset.prod_range_succ, Finset.prod_range_zero]
    nlinarith [mul_pos hEpos hEpos, sq_nonneg (Real.exp (-30 : ℝ))]

/-- Claim C6 (amended): increasing a single density `sigma_{i0}` (all other
inputs fixed, with a non-negative distance at that sample) never decreases
that sample's weight; and when `i0` is the last sample it never decreases
the returned opacity.  For non-final samples the opacity can decrease by an
amount on the order of the stabilising epsilon, so the claimed monotonicity
only survives in these weaker forms. -/
theorem opacity_monotonicity_amended (bs : List ℕ) (n : ℕ) (f f' g : List ℕ → ℝ)
    (b₀ : List ℕ) (i₀ : ℕ) (hb₀ : isValidIdx bs b₀ = true) (hi₀ : i₀ < n)
    (hsame : ∀ ix, ix ≠ b₀ ++ [i₀, 3] → f' ix = f ix)
    (hle : f (b₀ ++ [i₀, 3]) ≤ f' (b₀ ++ [i₀, 3]))
    (hd : 0 ≤ g (b₀ ++ [i₀])) :
    ∃ c o w c' o' w' : RTensor,
      compute_radiance (samplesT bs n f) (distT bs n g) = .ok (c, o, w)
      ∧ compute_radiance (samplesT bs n f') (distT bs n g) = .ok (c', o', w')
      ∧ w.val (b₀ ++ [i₀]) ≤ w'.val (b₀ ++ [i₀])
      ∧ (i₀ = n - 1 → o.val (b₀ ++ [0]) ≤ o'.val (b₀ ++ [0])) := by
  have hne : ∀ j : ℕ, j ≠ i₀ → b₀ ++ [j, 3] ≠ b₀ ++ [i₀, 3] := by
    intro j hj hEq
    have h2 : [j, 3] = ([i₀, 3] : List ℕ) := List.append_cancel_left hEq
    simp only [List.cons.injEq, and_true] at h2
    exact hj h2
  have heq : ∀ j, j < i₀ → raySigma f b₀ j = raySigma f' b₀ j := by
    intro j hj
    exact (hsame (b₀ ++ [j, 3]) (hne j (Nat.ne_of_lt hj))).symm
  refine ⟨_, _, _, _, _, _, compute_radiance_eval bs n f g,
    compute_radiance_eval bs n f' g, ?_, ?_⟩
  · rw [weightsT_eval bs n f g b₀ i₀ hb₀ hi₀, weightsT_eval bs n f' g b₀ i₀ hb₀ hi₀]
    exact specWeight_mono_at hd hle heq
  · intro hlast
    rw [opacity_eval bs n f g b₀ hb₀, opacity_eval bs n f' g b₀ hb₀]
    refine specOpacity_mono_last (lt_of_le_of_lt (Nat.zero_le i₀) hi₀) ?_ ?_ ?_
    · rw [← hlast]
      exact hd
    · intro j hj
      rw [← hlast] at hj
      exact heq j hj
    · rw [← hlast]
      exact hle

/-- Witness for the amended C6 at a concrete input. -/
theorem opacity_monotonicity_amended_witness :
    ∃ c o w c' o' w' : RTensor,
      compute_radiance (samplesT [] 1 (fun _ => 0)) (distT [] 1 (fun _ => 1))
        = .ok (c, o, w)
      ∧ compute_radiance
          (samplesT [] 1 (fun ix => if ix = [0, 3] then 1 else 0)) (distT [] 1 (fun _ => 1))
        = .ok (c', o', w')
      ∧ w.val ([] ++ [0]) ≤ w'.val ([] ++ [0]) := by
  obtain ⟨c, o, w, c', o', w', h1, h2, h3, -⟩ :=
    opacity_monotonicity_amended [] 1 (fun _ => 0)
      (fun ix => if ix = [0, 3] then 1 else 0) (fun _ => 1) [] 0
      rfl Nat.one_pos (fun ix hix => if_neg hix) (by simp) zero_le_one
  exact ⟨c, o, w, c', o', w', h1, h2, h3⟩

theorem c7_sigma0 : raySigma c7Samples [] 0 = 1 := by
  norm_num [raySigma, c7Samples, List.cons.injEq]

theorem c7_sigma1 : raySigma c7Samples [] 1 = 1 := by
  norm_num [raySigma, c7Samples, List.cons.injEq]

theorem c7_alpha0 :
    specAlpha (raySigma c7Samples []) (rayDist (fun _ => 1) []) 0 = 1 - Real.exp (-1) := by
  rw [specAlpha, c7_sigma0]
  norm_num [rayDist]

theorem c7_alpha1 :
    specAlpha (raySigma c7Samples []) (rayDist (fun _ => 1) []) 1 = 1 - Real.exp (-1) := by
  rw [specAlpha, c7_sigma1]
  norm_num [rayDist]

theorem c7_w0 :
    specWeight (raySigma c7Samples []) (rayDist (fun _ => 1) []) 0 = 1 - Real.exp (-1) := by
  rw [specWeight, specT, c7_alpha0]
  simp

theorem c7_w1 :
    specWeight (raySigma c7Samples []) (rayDist (fun _ => 1) []) 1
      = (1 - Real.exp (-1)) * (Real.exp (-1) + 1e-10) := by
  rw [specWeight, specT, c7_alpha1]
  rw [Finset.prod_range_succ, Finset.prod_range_zero, c7_alpha0]
  ring

/-- Claim C7: on the concrete input `N = 2`, `rgb = [[1,0,0],[0,1,0]]`,
`sigma = [1,1]`, `distances = [1,1]`, the per-sample alphas are within
`1e-3` of `0.632`, the weights within `1e-3` of `0.632` and `0.233`, the
opacity within `1e-3` of `0.865`, and the colour within `1e-3` of
`[0.632, 0.233, 0]` (the blue channel is exactly `0`). -/
theorem concrete_end_to_end :
    ∃ c o w : RTensor,
      compute_radiance (samplesT [] 2 c7Samples) (distT [] 2 (fun _ => 1)) = .ok (c, o, w)
      ∧ |specAlpha (raySigma c7Samples []) (rayDist (fun _ => 1) []) 0 - 0.632| < 1e-3
      ∧ |specAlpha (raySigma c7Samples []) (rayDist (fun _ => 1) []) 1 - 0.632| < 1e-3
      ∧ |w.val [0] - 0.632| < 1e-3
      ∧ |w.val [1] - 0.233| < 1e-3
      ∧ |o.val [0] - 0.865| < 1e-3
      ∧ |c.val [0] - 0.632| < 1e-3
      ∧ |c.val [1] - 0.233| < 1e-3
      ∧ c.val [2] = 0 := by
  have hu1 := exp_neg_one_gt
  have hu2 := exp_neg_one_lt
  have hupos : (0 : ℝ) < Real.exp (-1) := Real.exp_pos _
  have hw0 := weightsT_eval [] 2 c7Samples (fun _ => 1) [] 0 rfl (by norm_num)
  have hw1 := weightsT_eval [] 2 c7Samples (fun _ => 1) [] 1 rfl (by norm_num)
  have ho := opacity_eval [] 2 c7Samples (fun _ => 1) [] rfl
  have hc0 := rgbMap_eval [] 2 c7Samples (fun _ => 1) [] 0 rfl
  have hc1 := rgbMap_eval [] 2 c7Samples (fun _ => 1) [] 1 rfl
  have hc2 := rgbMap_eval [] 2 c7Samples (fun _ => 1) [] 2 rfl
  simp only [List.nil_append] at hw0 hw1 ho hc0 hc1 hc2
  refine ⟨_, _, _, compute_radiance_eval [] 2 c7Samples (fun _ => 1),
    ?_, ?_, ?_, ?_, ?_, ?_, ?_, ?_⟩
  · rw [c7_alpha0, abs_lt]
    constructor <;> nlinarith
  · rw [c7_alpha1, abs_lt]
    constructor <;> nlinarith
  · rw [hw0, c7_w0, abs_lt]
    constructor <;> nlinarith
  · rw [hw1, c7_w1, abs_lt]
    constructor <;> nlinarith
  · rw [ho]
    rw [specOpacity, Finset.sum_range_succ, Finset.sum_range_succ,
      Finset.sum_range_zero, c7_w0, c7_w1, abs_lt]
    constructor <;> nlinarith
  · rw [hc0]
    rw [specColor, Finset.sum_range_succ, Finset.sum_range_succ,
      Finset.sum_range_zero, c7_w0, c7_w1]
    have hr0 : rayChan c7Samples [] 0 0 = 1 := by
      norm_num [rayChan, c7Samples, List.cons.injEq]
    have hr1 : rayChan c7Samples [] 0 1 = 0 := by
      norm_num [rayChan, c7Samples, List.cons.injEq]
    rw [hr0, hr1, abs_lt]
    constructor <;> nlinarith
  · rw [hc1]
    rw [specColor, Finset.sum_range_succ, Finset.sum_range_succ,
      Finset.sum_range_zero, c7_w0, c7_w1]
    have hr0 : rayChan c7Samples [] 1 0 = 0 := by
      norm_num [rayChan, c7Samples, List.cons.injEq]
    have hr1 : rayChan c7Samples [] 1 1 = 1 := by
      norm_num [rayChan, c7Samples, List.cons.injEq]
    rw [hr0, hr1, abs_lt]
    constructor <;> nlinarith
  · rw [hc2]
    rw [specColor, Finset.sum_range_succ, Finset.sum_range_succ,
      Finset.sum_range_zero]
    have hr0 : rayChan c7Samples [] 2 0 = 0 := by
      norm_num [rayChan, c7Samples, List.cons.injEq]
    have hr1 : rayChan c7Samples [] 2 1 = 0 := by
      norm_num [rayChan, c7Samples, List.cons.injEq]
    rw [hr0, hr1]
    ring

theorem c8_bshape (n : ℕ) : bshape [5, n, 1] [1, n, 1] = [5, n, 1] := by
  show [Nat.max 5 1, Nat.max n n, Nat.max 1 1] = [5, n, 1]
  simp [Nat.max_self]

theorem c8_check_ok (n : ℕ) : checkShapes [5, n, 4] [1, n, 1] = none := by
  simp only [checkShapes,
    show ([5, n, 4] : List ℕ).getLastD 0 = 4 from rfl,
    show ([5, n, 4] : List ℕ).length = 3 from rfl,
    show ([1, n, 1] : List ℕ).length = 3 from rfl,
    show batchShape [5, n, 4] = [5] from rfl,
    show batchShape [1, n, 1] = [1] from rfl,
    show bcompat [5] [1] = true from rfl,
    show dimNeg2 [5, n, 4] = n from rfl,
    show dimNeg2 [1, n, 1] = n from rfl]
  norm_num

theorem c8_check_bad (n : ℕ) :
    checkShapes [5, n, 4] [2, n, 1]
      = some (.batchDimsIncompatible [5, n, 4] [2, n, 1]) := by
  simp only [checkShapes,
    show ([5, n, 4] : List ℕ).getLastD 0 = 4 from rfl,
    show ([5, n, 4] : List ℕ).length = 3 from rfl,
    show ([2, n, 1] : List ℕ).length = 3 from rfl,
    show batchShape [5, n, 4] = [5] from rfl,
    show batchShape [2, n, 1] = [2] from rfl,
    show bcompat [5] [2] = false from rfl]
  norm_num

theorem c8_alpha_shape (n : ℕ) (f g : List ℕ → ℝ) :
    (alphaT ⟨[5, n, 4], f⟩ (expandLast ⟨[1, n], g⟩)).shape = [5, n] := by
  have h : (ewMul (tmap (fun x => -x) (splitSigma ⟨[5, n, 4], f⟩))
      (expandLast ⟨[1, n], g⟩)).shape = [5, n, 1] := by
    rw [ewMul_shape]
    exact c8_bshape n
  show ((ewMul (tmap (fun x => -x) (splitSigma ⟨[5, n, 4], f⟩))
      (expandLast ⟨[1, n], g⟩)).shape).dropLast = [5, n]
  rw [h]
  rfl

theorem c8_w_shape (n : ℕ) (f g : List ℕ → ℝ) :
    (weightsT ⟨[5, n, 4], f⟩ (expandLast ⟨[1, n], g⟩)).shape = [5, n] := by
  have hcs : (cumprodExLast (tmap (fun x => 1 - x + 1e-10)
      (alphaT ⟨[5, n, 4], f⟩ (expandLast ⟨[1, n], g⟩)))).shape
      = (alphaT ⟨[5, n, 4], f⟩ (expandLast ⟨[1, n], g⟩)).shape := rfl
  simp only [weightsT, ewMul_shape, hcs, c8_alpha_shape, bshape_self]

theorem c8_opacity_shape (n : ℕ) (f g : List ℕ → ℝ) :
    (expandLast (accMapT ⟨[5, n, 4], f⟩ (expandLast ⟨[1, n], g⟩))).shape = [5, 1] := by
  simp only [expandLast_shape, accMapT_def, reduceSumLast_shape, c8_w_shape]
  rfl

theorem c8_rgb_shape (n : ℕ) (f g : List ℕ → ℝ) :
    (rgbMapT ⟨[5, n, 4], f⟩ (expandLast ⟨[1, n], g⟩)).shape = [5, 3] := by
  simp only [rgbMapT_def, reduceSumSnd_shape, ewMul_shape, expandLast_shape,
    splitRGB_shape, show ([5, n, 4] : List ℕ).dropLast = [5, n] from rfl,
    show ([5, n] : List ℕ) = [5] ++ [n] from rfl, c8_w_shape, bshape_one_three,
    batchShape, List.dropLast_concat, lastD_concat]
  rfl

/-- Claim C8: a `distances` batch dimension of size `1` against a samples
batch dimension of size `5` succeeds with outputs broadcast to batch size
`5`; a mismatched non-1 batch dimension (`2` against `5`) raises a
`ShapeError`. -/
theorem broadcast_batch_dim (n : ℕ) (f g g2 : List ℕ → ℝ) :
    (∃ c o w : RTensor,
      compute_radiance ⟨[5, n, 4], f⟩ ⟨[1, n], g⟩ = .ok (c, o, w)
      ∧ c.shape = [5, 3] ∧ o.shape = [5, 1] ∧ w.shape = [5, n])
    ∧ (∃ e, compute_radiance ⟨[5, n, 4], f⟩ ⟨[2, n], g2⟩ = .error e) := by
  constructor
  · exact ⟨_, _, _, compute_radiance_ok ⟨[5, n, 4], f⟩ ⟨[1, n], g⟩ (c8_check_ok n),
      c8_rgb_shape n f g, c8_opacity_shape n f g, c8_w_shape n f g⟩
  · exact ⟨_, compute_radiance_err ⟨[5, n, 4], f⟩ ⟨[2, n], g2⟩ _ (c8_check_bad n)⟩

/-- Witness for C8 at a concrete sample count. -/
theorem broadcast_batch_dim_witness :
    ∃ c o w : RTensor,
      compute_radiance ⟨[5, 1, 4], fun _ => 0⟩ ⟨[1, 1], fun _ => 0⟩ = .ok (c, o, w)
      ∧ c.shape = [5, 3] ∧ o.shape = [5, 1] ∧ w.shape = [5, 1] :=
  (broadcast_batch_dim 1 (fun _ => 0) (fun _ => 0) (fun _ => 0)).1

theorem permSigma_eval (π : ℕ → ℕ) (f : List ℕ → ℝ) (b : List ℕ) (i : ℕ) :
    raySigma (permSamples π f) b i = f (b ++ [π i, 3]) := by
  show permSamples π f (b ++ [i, 3]) = f (b ++ [π i, 3])
  simp only [permSamples]
  rw [app2 b i 3]
  simp only [List.dropLast_concat, lastD_concat]

theorem permDist_eval (π : ℕ → ℕ) (g : List ℕ → ℝ) (b : List ℕ) (i : ℕ) :
    rayDist (permDist π g) b i = g (b ++ [π i]) := by
  show permDist π g (b ++ [i]) = g (b ++ [π i])
  simp only [permDist, List.dropLast_concat, lastD_concat]

theorem c9_sigmaP0 : raySigma c9SamplesP [] 0 = 1 := by
  norm_num [raySigma, c9SamplesP, List.cons.injEq]

theorem c9_sigmaP1 : raySigma c9SamplesP [] 1 = 0 := by
  norm_num [raySigma, c9SamplesP, List.cons.injEq]

theorem c9_sigmaQ0 : raySigma c9SamplesQ [] 0 = 0 := by
  norm_num [raySigma, c9SamplesQ, c9SamplesP, swap2, List.cons.injEq]

theorem c9_sigmaQ1 : raySigma c9SamplesQ [] 1 = 1 := by
  norm_num [raySigma, c9SamplesQ, c9SamplesP, swap2, List.cons.injEq]

theorem c9_wP0 :
    specWeight (raySigma c9SamplesP []) (rayDist c9DistP []) 0 = 1 - Real.exp (-1) := by
  rw [specWeight, specT, specAlpha, c9_sigmaP0]
  norm_num [rayDist, c9DistP]

theorem c9_wQ1 :
    specWeight (raySigma c9SamplesQ []) (rayDist c9DistQ []) 1
      = (1 - Real.exp (-1)) * (1 + 1e-10) := by
  rw [specWeight, specT, Finset.prod_range_succ, Finset.prod_range_zero]
  rw [specAlpha, specAlpha, c9_sigmaQ0, c9_sigmaQ1]
  have hd0 : rayDist c9DistQ [] 0 = 1 := rfl
  have hd1 : rayDist c9DistQ [] 1 = 1 := rfl
  rw [hd0, hd1]
  norm_num

theorem c9_one_sub_exp_pos : (0 : ℝ) < 1 - Real.exp (-1) := by
  have h := exp_neg_one_lt
  linarith

/-- Claim C9: permuting the sample axis of samples and distances jointly
changes the returned weights and colour in general (witnessed by a concrete
two-sample input and its transposition), whereas in the all-zero-density
case every reindexing of the sample axis leaves all outputs unchanged. -/
theorem order_sensitivity :
    (∃ cP oP wP cQ oQ wQ : RTensor,
      compute_radiance (samplesT [] 2 c9SamplesP) (distT [] 2 c9DistP) = .ok (cP, oP, wP)
      ∧ compute_radiance (samplesT [] 2 c9SamplesQ) (distT [] 2 c9DistQ) = .ok (cQ, oQ, wQ)
      ∧ wP.val [0] ≠ wQ.val [0] ∧ cP.val [0] ≠ cQ.val [0])
    ∧ (∀ (bs : List ℕ) (n : ℕ) (f g : List ℕ → ℝ) (π : ℕ → ℕ),
        (∀ i, i < n → π i < n) →
        (∀ b i, isValidIdx bs b = true → i < n → f (b ++ [i, 3]) = 0) →
        ∃ c o w c' o' w' : RTensor,
          compute_radiance (samplesT bs n f) (distT bs n g) = .ok (c, o, w)
          ∧ compute_radiance (samplesT bs n (permSamples π f))
              (distT bs n (permDist π g)) = .ok (c', o', w')
          ∧ (∀ b i, isValidIdx bs b = true → i < n →
              w.val (b ++ [i]) = w'.val (b ++ [i]))
          ∧ (∀ b, isValidIdx bs b = true → o.val (b ++ [0]) = o'.val (b ++ [0]))
          ∧ (∀ b ch, isValidIdx bs b = true → ch < 3 →
              c.val (b ++ [ch]) = c'.val (b ++ [ch]))) := by
  constructor
  · refine ⟨_, _, _, _, _, _, compute_radiance_eval [] 2 c9SamplesP c9DistP,
      compute_radiance_eval [] 2 c9SamplesQ c9DistQ, ?_, ?_⟩
    · have hP := weightsT_eval [] 2 c9SamplesP c9DistP [] 0 rfl (by norm_num)
      have hQ := weightsT_eval [] 2 c9SamplesQ c9DistQ [] 0 rfl (by norm_num)
      simp only [List.nil_append] at hP hQ
      rw [hP, hQ, specWeight_zero c9_sigmaQ0, c9_wP0]
      exact ne_of_gt c9_one_sub_exp_pos
    · have hP := rgbMap_eval [] 2 c9SamplesP c9DistP [] 0 rfl
      have hQ := rgbMap_eval [] 2 c9SamplesQ c9DistQ [] 0 rfl
      simp only [List.nil_append] at hP hQ
      rw [hP, hQ, specColor, specColor]
      simp only [Finset.sum_range_succ, Finset.sum_range_zero]
      rw [specWeight_zero c9_sigmaP1, specWeight_zero c9_sigmaQ0, c9_wP0, c9_wQ1]
      have hr1 : rayChan c9SamplesP [] 0 0 = 1 := by
        norm_num [rayChan, c9SamplesP, List.cons.injEq]
      have hr2 : rayChan c9SamplesQ [] 0 1 = 1 := by
        norm_num [rayChan, c9SamplesQ, c9SamplesP, swap2, List.cons.injEq]
      rw [hr1, hr2]
      have h := c9_one_sub_exp_pos
      intro hEq
      nlinarith
  · intro bs n f g π hπ hσ
    have hσ' : ∀ b i, isValidIdx bs b = true → i < n →
        raySigma (permSamples π f) b i = 0 := by
      intro b i hb hi
      rw [permSigma_eval]
      exact hσ b (π i) hb (hπ i hi)
    refine ⟨_, _, _, _, _, _, compute_radiance_eval bs n f g,
      compute_radiance_eval bs n (permSamples π f) (permDist π g), ?_, ?_, ?_⟩
    · intro b i hb hi
      rw [weightsT_eval bs n f g b i hb hi,
        weightsT_eval bs n (permSamples π f) (permDist π g) b i hb hi,
        specWeight_zero (show raySigma f b i = 0 from hσ b i hb hi),
        specWeight_zero (hσ' b i hb hi)]
    · intro b hb
      rw [opacity_eval bs n f g b hb,
        opacity_eval bs n (permSamples π f) (permDist π g) b hb,
        specOpacity, specOpacity]
      refine Finset.sum_congr rfl fun i hi => ?_
      rw [specWeight_zero (show raySigma f b i = 0 from hσ b i hb (Finset.mem_range.mp hi)),
        specWeight_zero (hσ' b i hb (Finset.mem_range.mp hi))]
    · intro b ch hb hch
      rw [rgbMap_eval bs n f g b ch hb,
        rgbMap_eval bs n (permSamples π f) (permDist π g) b ch hb,
        specColor, specColor]
      refine Finset.sum_congr rfl fun i hi => ?_
      rw [specWeight_zero (show raySigma f b i = 0 from hσ b i hb (Finset.mem_range.mp hi)),
        specWeight_zero (hσ' b i hb (Finset.mem_range.mp hi)), zero_mul, zero_mul]

/-- Witness for C9 (the zero-density invariance part at a concrete input). -/
theorem order_sensitivity_witness :
    ∃ c o w c' o' w' : RTensor,
      compute_radiance (samplesT [] 1 (fun _ => 0)) (distT [] 1 (fun _ => 0))
        = .ok (c, o, w)
      ∧ compute_radiance (samplesT [] 1 (permSamples (fun i => i) (fun _ => 0)))
          (distT [] 1 (permDist (fun i => i) (fun _ => 0))) = .ok (c', o', w') := by
  obtain ⟨c, o, w, c', o', w', h1, h2, -, -, -⟩ :=
    order_sensitivity.2 [] 1 (fun _ => 0) (fun _ => 0) (fun i => i)
      (fun i h => h) (fun b i _ _ => rfl)
  exact ⟨c, o, w, c', o', w', h1, h2⟩

/-- Claim C10: for every real (hence finite) density and distance input,
each per-sample `alpha_i` is strictly less than `1`, each cumulative-product
factor `1 - alpha_i + 1e-10` and each transmittance `T_i` is strictly
positive, and hence a weight is zero exactly when its own `alpha_i` is zero:
no weight after a fully absorbing finite sample is forced to exact zero. -/
theorem alpha_lt_one_transmittance_pos (σ d : ℕ → ℝ) (i : ℕ) :
    specAlpha σ d i < 1 ∧ 0 < 1 - specAlpha σ d i + 1e-10 ∧ 0 < specT σ d i
      ∧ (specWeight σ d i = 0 ↔ specAlpha σ d i = 0) := by
  refine ⟨specAlpha_lt_one σ d i, factor_pos σ d i, specT_pos σ d i, ?_⟩
  rw [specWeight]
  constructor
  · intro h
    rcases mul_eq_zero.mp h with h1 | h2
    · exact h1
    · exact absurd h2 (ne_of_gt (specT_pos σ d i))
  · intro h
    rw [h, zero_mul]

/-- Witness for C10 at a concrete input. -/
theorem alpha_lt_one_transmittance_pos_witness :
    specAlpha (fun _ => 1) (fun _ => 1) 0 < 1
      ∧ 0 < specT (fun _ => 1) (fun _ => 1) 0 :=
  ⟨(alpha_lt_one_transmittance_pos (fun _ => 1) (fun _ => 1) 0).1,
   (alpha_lt_one_transmittance_pos (fun _ => 1) (fun _ => 1) 0).2.2.1⟩

end RayRadiance
